import Mathlib

/-!
Verification of the bundle-transfer subsystem of `frida-ios-dump-ng`.

Each definition below is a shallow embedding of one Python function of the
repository (`progress.py`, `transfer.py`, `ssh.py`, `cli.py`); the theorems
settle the specification claims against those embeddings.  Python integers
are unbounded, so counters are `Int`/`Nat`; Python floats are modelled by
exact rationals; Python exceptions are modelled by `Except`; byte strings by
`List Nat`.
-/

namespace FridaDump

/-- Embedding of `ProgressBar.update` (`progress.py` lines 57-63): the
`current` byte counter is incremented by `delta` unless `delta <= 0`, in
which case the method returns immediately and the counter is unchanged. -/
def progressUpdate (current : Int) (delta : Int) : Int :=
  if delta ≤ 0 then current else current + delta

/-- Embedding of the ETA computation of `ProgressBar._render_unlocked`
(`progress.py` lines 75-88), over exact rationals in place of Python floats:
`ratio = min(current / total, 1.0)`, and an ETA of
`elapsed / ratio - elapsed` is rendered exactly when
`ratio > 0.01 and ratio < 1.0`; otherwise no ETA string is produced. -/
def renderEta (elapsed current total : ℚ) : Option ℚ :=
  let ratio := min (current / total) 1
  if 1/100 < ratio ∧ ratio < 1 then some (elapsed / ratio - elapsed) else none

/-- C7: `ProgressBar.update` adds `delta` to the transferred counter exactly
when `delta > 0` and leaves it unchanged when `delta ≤ 0`; hence for
`d1, d2 ≥ 0`, `advance(d1); advance(d2)` from zero yields `d1 + d2`, and
`advance(-5)` is a no-op. -/
theorem progressUpdate_spec (d1 d2 : Int) (h1 : 0 ≤ d1) (h2 : 0 ≤ d2) :
    progressUpdate (progressUpdate 0 d1) d2 = d1 + d2 ∧
    (∀ c : Int, progressUpdate c (-5) = c) ∧
    (∀ c d : Int, 0 < d → progressUpdate c d = c + d) ∧
    (∀ c d : Int, d ≤ 0 → progressUpdate c d = c) := by
  refine ⟨?_, ?_, ?_, ?_⟩
  · simp only [progressUpdate]
    split_ifs
    all_goals omega
  · intro c
    norm_num [progressUpdate]
  · intro c d hd
    simp only [progressUpdate]
    split_ifs <;> omega
  · intro c d hd
    simp only [progressUpdate]
    split_ifs <;> omega

/-- Witness for C7 at `d1 = 3`, `d2 = 4`. -/
theorem progressUpdate_spec_witness :
    progressUpdate (progressUpdate 0 3) 4 = 3 + 4 ∧
    (∀ c : Int, progressUpdate c (-5) = c) ∧
    (∀ c d : Int, 0 < d → progressUpdate c d = c + d) ∧
    (∀ c d : Int, d ≤ 0 → progressUpdate c d = c) :=
  progressUpdate_spec 3 4 (by decide) (by decide)

/-- C8: with a known nonzero total, the rendered ETA equals
`elapsed * (total / transferred) - elapsed`, and it is produced exactly when
`transferred / total` lies strictly between 1% and 100%; in particular no
ETA is produced when `transferred = 0` or `transferred ≥ total`. -/
theorem renderEta_spec (elapsed current total : ℚ) (ht : 0 < total) :
    ((renderEta elapsed current total).isSome ↔
      1/100 < current / total ∧ current / total < 1) ∧
    (1/100 < current / total → current / total < 1 →
      renderEta elapsed current total =
        some (elapsed * (total / current) - elapsed)) ∧
    (current = 0 → renderEta elapsed current total = none) ∧
    (total ≤ current → renderEta elapsed current total = none) := by
  have hmin : ∀ x : ℚ, (1/100 < min x 1 ∧ min x 1 < 1) ↔ (1/100 < x ∧ x < 1) := by
    intro x
    constructor
    · rintro ⟨ha, hb⟩
      have hx1 : x < 1 := by
        rcases le_total x 1 with h | h
        · rcases lt_or_eq_of_le h with h' | h'
          · exact h'
          · subst h'
            simp at hb
        · rw [min_eq_right h] at hb
          exact absurd hb (lt_irrefl 1)
      rw [min_eq_left (le_of_lt hx1)] at ha
      exact ⟨ha, hx1⟩
    · rintro ⟨ha, hb⟩
      rw [min_eq_left (le_of_lt hb)]
      exact ⟨ha, hb⟩
  refine ⟨?_, ?_, ?_, ?_⟩
  · simp only [renderEta]
    split_ifs with h
    · simp only [Option.isSome_some, true_iff]
      exact (hmin _).mp h
    · simp only [Option.isSome_none, Bool.false_eq_true, false_iff]
      intro hc
      exact h ((hmin _).mpr hc)
  · intro ha hb
    have hc0 : 0 < current := by
      by_contra hc
      push_neg at hc
      have : current / total ≤ 0 := div_nonpos_of_nonpos_of_nonneg hc (le_of_lt ht)
      have : (1:ℚ)/100 < 0 := lt_of_lt_of_le ha this
      norm_num at this
    simp only [renderEta, min_eq_left (le_of_lt hb)]
    rw [if_pos ⟨ha, hb⟩]
    congr 1
    rw [div_div_eq_mul_div, mul_div_assoc]
  · intro hc
    subst hc
    simp [renderEta]
  · intro hc
    have h1 : (1:ℚ) ≤ current / total := (one_le_div ht).mpr hc
    simp only [renderEta, min_eq_right h1]
    norm_num

/-- Witness for C8 at `elapsed = 10`, `current = 50`, `total = 100`. -/
theorem renderEta_spec_witness :
    ((renderEta 10 50 100).isSome ↔
      1/100 < (50:ℚ) / 100 ∧ (50:ℚ) / 100 < 1) ∧
    (1/100 < (50:ℚ) / 100 → (50:ℚ) / 100 < 1 →
      renderEta 10 50 100 = some (10 * ((100:ℚ) / 50) - 10)) ∧
    ((50:ℚ) = 0 → renderEta 10 50 100 = none) ∧
    ((100:ℚ) ≤ 50 → renderEta 10 50 100 = none) :=
  renderEta_spec 10 50 100 (by norm_num)

/-- Embedding of the read loop of `pull_file_via_frida` (`transfer.py` lines
243-253).  `readF offset len` is the transport's `read_file` call.  The loop
runs while `offset < size`, requests `min chunkSize (size - offset)` bytes,
breaks on an empty chunk, otherwise writes the chunk and advances `offset`
by its length.  The result is the list of chunks written, in order, paired
with the number of `read_file` calls performed.  The first argument is fuel:
each iteration advances `offset` by at least one byte, so any fuel of at
least `size - offset` yields the loop's true result
(`pullFileLoopGo_fuel_irrelevant`). -/
def pullFileLoopGo (readF : Nat → Nat → List Nat) (chunkSize size : Nat) :
    Nat → Nat → List (List Nat) × Nat
  | 0, _ => ([], 0)
  | fuel + 1, offset =>
    if offset < size then
      let chunk := readF offset (min chunkSize (size - offset))
      if chunk.isEmpty then ([], 1)
      else
        let t := pullFileLoopGo readF chunkSize size fuel (offset + chunk.length)
        (chunk :: t.1, t.2 + 1)
    else ([], 0)

/-- The read loop of `pull_file_via_frida` started at offset `offset`. -/
def pullFileLoopFrom (readF : Nat → Nat → List Nat)
    (chunkSize size offset : Nat) : List (List Nat) × Nat :=
  pullFileLoopGo readF chunkSize size (size - offset) offset

/-- The read loop of `pull_file_via_frida` started at offset `0`, as in the
source (`offset = 0` before the `while` loop). -/
def pullFileLoop (readF : Nat → Nat → List Nat)
    (chunkSize size : Nat) : List (List Nat) × Nat :=
  pullFileLoopFrom readF chunkSize size 0

/-- The successive values returned by the transport's `read_file` calls
during the read loop of `pull_file_via_frida`, including a final empty chunk
when one ends the loop.  Same fuel convention as `pullFileLoopGo`. -/
def readCallsGo (readF : Nat → Nat → List Nat) (chunkSize size : Nat) :
    Nat → Nat → List (List Nat)
  | 0, _ => []
  | fuel + 1, offset =>
    if offset < size then
      let chunk := readF offset (min chunkSize (size - offset))
      if chunk.isEmpty then [chunk]
      else chunk :: readCallsGo readF chunkSize size fuel (offset + chunk.length)
    else []

/-- The `read_file` results of the whole loop run of `pull_file_via_frida`. -/
def readCalls (readF : Nat → Nat → List Nat) (chunkSize size : Nat) :
    List (List Nat) :=
  readCallsGo readF chunkSize size size 0

/-- Opening a local path with mode `"wb"` (`transfer.py` line 243): the
file's content becomes empty, every other path is untouched. -/
def openWb (fs : String → List Nat) (path : String) : String → List Nat :=
  fun p => if p = path then [] else fs p

/-- Sequential `handle.write(chunk)` calls: each chunk is appended to the
file content accumulated so far. -/
def writeAll (content : List Nat) : List (List Nat) → List Nat
  | [] => content
  | c :: cs => writeAll (content ++ c) cs

/-- Embedding of the local-file effect of `pull_file_via_frida`
(`transfer.py` lines 243-253): the destination is opened in truncating
write mode, the loop's chunks are written in order, and each written chunk
triggers one progress update.  Returns the updated file system, the number
of `read_file` calls, and the number of progress updates. -/
def pullFileViaFrida (fs : String → List Nat) (localPath : String)
    (readF : Nat → Nat → List Nat) (chunkSize size : Nat) :
    (String → List Nat) × Nat × Nat :=
  let t := pullFileLoop readF chunkSize size
  let fs1 := openWb fs localPath
  (fun p => if p = localPath then writeAll (fs1 localPath) t.1 else fs1 p,
    t.2, t.1.length)

/-- Any two sufficient fuels give `pullFileLoopGo` the same result: the fuel
is an artifact of the embedding, not of the Python `while` loop. -/
theorem pullFileLoopGo_fuel_irrelevant (readF : Nat → Nat → List Nat)
    (chunkSize size : Nat) :
    ∀ f1 f2 offset, size - offset ≤ f1 → size - offset ≤ f2 →
      pullFileLoopGo readF chunkSize size f1 offset =
        pullFileLoopGo readF chunkSize size f2 offset := by
  intro f1
  induction f1 with
  | zero =>
    intro f2 offset h1 h2
    cases f2 with
    | zero => rfl
    | succ f2 =>
      simp only [pullFileLoopGo]
      rw [if_neg (by omega)]
  | succ f1 ih =>
    intro f2 offset h1 h2
    cases f2 with
    | zero =>
      simp only [pullFileLoopGo]
      rw [if_neg (by omega)]
    | succ f2 =>
      simp only [pullFileLoopGo]
      by_cases hlt : offset < size
      · rw [if_pos hlt, if_pos hlt]
        by_cases he : (readF offset (min chunkSize (size - offset))).isEmpty
        · rw [if_pos he, if_pos he]
        · rw [if_neg he, if_neg he]
          have hlen : 0 < (readF offset (min chunkSize (size - offset))).length := by
            cases hc : readF offset (min chunkSize (size - offset)) with
            | nil => rw [hc] at he; simp at he
            | cons a l => simp [hc]
          rw [ih f2 (offset + (readF offset (min chunkSize (size - offset))).length)
            (by omega) (by omega)]
      · rw [if_neg hlt, if_neg hlt]

/-- With reads of exactly the requested length, the loop from any offset
writes exactly `size - offset` bytes. -/
theorem pullFileLoopGo_exact_length (readF : Nat → Nat → List Nat)
    (chunkSize size : Nat) (hcs : 0 < chunkSize)
    (hex : ∀ off len, (readF off len).length = len) :
    ∀ fuel offset, size - offset ≤ fuel →
      ((pullFileLoopGo readF chunkSize size fuel offset).1.flatten).length =
        size - offset := by
  intro fuel
  induction fuel with
  | zero =>
    intro offset h
    simp only [pullFileLoopGo, List.flatten_nil, List.length_nil]
    omega
  | succ fuel ih =>
    intro offset h
    by_cases hlt : offset < size
    · have hlen : (readF offset (min chunkSize (size - offset))).length =
          min chunkSize (size - offset) := hex _ _
      have hne : (readF offset (min chunkSize (size - offset))).isEmpty = false := by
        cases hc : readF offset (min chunkSize (size - offset)) with
        | nil => rw [hc] at hlen; simp at hlen; omega
        | cons a l => simp
      simp only [pullFileLoopGo, if_pos hlt, hne, Bool.false_eq_true, if_false,
        List.flatten_cons, List.length_append, hlen]
      rw [ih (offset + min chunkSize (size - offset)) (by omega)]
      omega
    · simp only [pullFileLoopGo, if_neg hlt, List.flatten_nil, List.length_nil]
      omega

/-- The written chunks and the raw `read_file` results have the same
concatenation: a final empty read contributes no bytes. -/
theorem pullFileLoopGo_flatten_readCalls (readF : Nat → Nat → List Nat)
    (chunkSize size : Nat) :
    ∀ fuel offset,
      (pullFileLoopGo readF chunkSize size fuel offset).1.flatten =
        (readCallsGo readF chunkSize size fuel offset).flatten := by
  intro fuel
  induction fuel with
  | zero => intro offset; rfl
  | succ fuel ih =>
    intro offset
    by_cases hlt : offset < size
    · by_cases he : (readF offset (min chunkSize (size - offset))).isEmpty
      · have hnil : readF offset (min chunkSize (size - offset)) = [] := by
          cases hc : readF offset (min chunkSize (size - offset)) with
          | nil => rfl
          | cons a l => rw [hc] at he; simp at he
        simp [pullFileLoopGo, readCallsGo, if_pos hlt, he, hnil]
      · simp only [pullFileLoopGo, readCallsGo, if_pos hlt, if_neg he,
          List.flatten_cons]
        rw [ih]
    · simp [pullFileLoopGo, readCallsGo, if_neg hlt]

/-- Writing a list of chunks one after the other appends their
concatenation to the starting content. -/
theorem writeAll_eq (l : List (List Nat)) :
    ∀ content, writeAll content l = content ++ l.flatten := by
  induction l with
  | nil => intro content; simp [writeAll]
  | cons c cs ih =>
    intro content
    simp only [writeAll, List.flatten_cons, ih, List.append_assoc]

/-- C2 counterexample: a short (nonempty, shorter than requested) read does
not terminate the copy early.  With `size = 2`, `chunkSize = 2`, the first
`read_file` call requests 2 bytes and returns the single byte `[7]` — a
short read before `offset` reaches `size` — yet the loop issues a second
read and writes both chunks, performing 2 reads in total rather than
stopping at 1. -/
theorem pullFileLoop_short_read_counterexample :
    pullFileLoop (fun offset _ => if offset = 0 then [7] else [8]) 2 2 =
      ([[7], [8]], 2) ∧ (2 : Nat) ≠ 1 := by
  constructor
  · rfl
  · decide

/-- C2 (amended): the read loop of `pull_file_via_frida` runs while
`offset < size` requesting `min(chunkSize, size - offset)` bytes per read;
an *empty* read before `offset` reaches `size` terminates the copy early
without raising an error, while a short nonempty read is written and the
loop continues from the advanced offset; when every read returns exactly
the requested length (and `chunkSize > 0`), exactly `size` bytes are
written. -/
theorem pullFileLoop_spec (readF : Nat → Nat → List Nat)
    (chunkSize size : Nat) :
    (0 < chunkSize → (∀ off len, (readF off len).length = len) →
      ((pullFileLoop readF chunkSize size).1.flatten).length = size) ∧
    (0 < size → readF 0 (min chunkSize size) = [] →
      pullFileLoop readF chunkSize size = ([], 1)) ∧
    (∀ offset, offset < size →
      readF offset (min chunkSize (size - offset)) ≠ [] →
      pullFileLoopFrom readF chunkSize size offset =
        (readF offset (min chunkSize (size - offset)) ::
          (pullFileLoopFrom readF chunkSize size
            (offset + (readF offset (min chunkSize (size - offset))).length)).1,
          (pullFileLoopFrom readF chunkSize size
            (offset + (readF offset (min chunkSize (size - offset))).length)).2
            + 1)) := by
  refine ⟨?_, ?_, ?_⟩
  · intro hcs hex
    have h := pullFileLoopGo_exact_length readF chunkSize size hcs hex size 0
      (by omega)
    simpa [pullFileLoop, pullFileLoopFrom] using h
  · intro hsz hnil
    obtain ⟨s, rfl⟩ : ∃ s, size = s + 1 := ⟨size - 1, by omega⟩
    simp only [pullFileLoop, pullFileLoopFrom, pullFileLoopGo, Nat.sub_zero]
    simp [hnil]
  · intro offset hlt hne
    have he : (readF offset (min chunkSize (size - offset))).isEmpty = false := by
      cases hc : readF offset (min chunkSize (size - offset)) with
      | nil => exact absurd hc hne
      | cons a l => simp
    have hlen : 0 < (readF offset (min chunkSize (size - offset))).length := by
      cases hc : readF offset (min chunkSize (size - offset)) with
      | nil => exact absurd hc hne
      | cons a l => simp [hc]
    obtain ⟨k, hk⟩ : ∃ k, size - offset = k + 1 := ⟨size - offset - 1, by omega⟩
    rw [hk] at he hlen
    simp only [pullFileLoopFrom, hk, pullFileLoopGo, if_pos hlt, he,
      Bool.false_eq_true, if_false]
    rw [pullFileLoopGo_fuel_irrelevant readF chunkSize size k
      (size - (offset + (readF offset (min chunkSize (k + 1))).length))
      (offset + (readF offset (min chunkSize (k + 1))).length)
      (by omega) (by omega)]

/-- Witness for C2 at concrete transports: exact reads of 5 bytes with
chunk size 2; an empty first read with `size = 3`; a short first read
`[9]` with `size = 3`, after which the loop continues from offset 1. -/
theorem pullFileLoop_spec_witness :
    ((pullFileLoop (fun _ len => List.replicate len 0) 2 5).1.flatten).length
      = 5 ∧
    pullFileLoop (fun _ _ => ([] : List Nat)) 4 3 = ([], 1) ∧
    pullFileLoopFrom (fun o _ => if o = 0 then [9] else [5, 5]) 4 3 0 =
      ([9] :: (pullFileLoopFrom (fun o _ => if o = 0 then [9] else [5, 5])
          4 3 1).1,
        (pullFileLoopFrom (fun o _ => if o = 0 then [9] else [5, 5])
          4 3 1).2 + 1) := by
  refine ⟨(pullFileLoop_spec (fun _ len => List.replicate len 0) 2 5).1
    (by decide) (fun o len => by simp), ?_, ?_⟩
  · exact (pullFileLoop_spec (fun _ _ => []) 4 3).2.1 (by decide) rfl
  · have h := (pullFileLoop_spec (fun o _ => if o = 0 then [9] else [5, 5])
      4 3).2.2 0 (by decide) (by decide)
    simpa using h

/-- C10: the local destination of `pull_file_via_frida` is opened in
truncating write mode — whatever content the local file system held at
`localPath` before the call, afterwards it holds exactly the in-order
concatenation of the chunks returned by the transport's `read_file` calls,
and every other path is untouched; for a 0-byte remote file there are zero
reads, zero progress updates, and an empty local file. -/
theorem pullFileViaFrida_spec (fs : String → List Nat) (localPath : String)
    (readF : Nat → Nat → List Nat) (chunkSize size : Nat) :
    (pullFileViaFrida fs localPath readF chunkSize size).1 localPath =
      (readCalls readF chunkSize size).flatten ∧
    (∀ p, p ≠ localPath →
      (pullFileViaFrida fs localPath readF chunkSize size).1 p = fs p) ∧
    (pullFileViaFrida fs localPath readF chunkSize 0).2.1 = 0 ∧
    (pullFileViaFrida fs localPath readF chunkSize 0).2.2 = 0 ∧
    (pullFileViaFrida fs localPath readF chunkSize 0).1 localPath = [] := by
  refine ⟨?_, ?_, rfl, rfl, ?_⟩
  · simp [pullFileViaFrida, openWb]
    rw [writeAll_eq, List.nil_append]
    exact pullFileLoopGo_flatten_readCalls readF chunkSize size size 0
  · intro p hp
    simp [pullFileViaFrida, openWb, hp]
  · simp [pullFileViaFrida, openWb]
    rfl

/-- Witness for C10 at a one-chunk transport and a pre-populated local
file system. -/
theorem pullFileViaFrida_spec_witness :
    (pullFileViaFrida (fun _ => [9]) "a" (fun _ _ => [3]) 1 1).1 "a" =
      (readCalls (fun _ _ => [3]) 1 1).flatten ∧
    ("b" : String) ≠ "a" ∧
    (pullFileViaFrida (fun _ => [9]) "a" (fun _ _ => [3]) 1 1).1 "b" = [9] ∧
    (pullFileViaFrida (fun _ => [9]) "a" (fun _ _ => [3]) 1 0).2.1 = 0 ∧
    (pullFileViaFrida (fun _ => [9]) "a" (fun _ _ => [3]) 1 0).1 "a" = [] := by
  have h := pullFileViaFrida_spec (fun _ => [9]) "a" (fun _ _ => [3]) 1 1
  exact ⟨h.1, by decide, h.2.1 "b" (by decide), h.2.2.1, h.2.2.2.2⟩

/-- One observable event of a tree download: creating one local directory
(`os.makedirs`) or starting the transfer of one file. -/
inductive TransferEvent where
  | mkdir (rel : String)
  | pullFile (rel : String)
deriving DecidableEq

/-- Embedding of the directory pre-creation order of `pull_bundle_via_frida`
(`transfer.py` line 143): `sorted(dirs, key=len)` — Python's stable sort
keyed by string length, matched by the stable `List.mergeSort` under the
length comparison. -/
def dirCreationOrder (dirs : List String) : List String :=
  dirs.mergeSort (fun a b => decide (a.length ≤ b.length))

/-- Embedding of the directory pre-creation order of `SshClient.download_dir`
(`ssh.py` line 159), which runs the same `sorted(dirs, key=len)` loop. -/
def sshDirCreationOrder (dirs : List String) : List String :=
  dirs.mergeSort (fun a b => decide (a.length ≤ b.length))

/-- Event trace of `pull_bundle_via_frida` (`transfer.py` lines 141-173):
the whole directory-creation loop runs before the worker pool is created or
the sequential loop starts, so every `mkdir` precedes every file transfer;
`sched` is the order in which file transfers begin, kept abstract so that
statements quantify over every worker scheduling. -/
def pullBundleTrace (dirs sched : List String) : List TransferEvent :=
  (dirCreationOrder dirs).map TransferEvent.mkdir ++
    sched.map TransferEvent.pullFile

/-- Event trace of `SshClient.download_dir` (`ssh.py` lines 155-166):
the directory-creation loop, then the SFTP file-download loop. -/
def sshDownloadDirTrace (dirs sched : List String) : List TransferEvent :=
  (sshDirCreationOrder dirs).map TransferEvent.mkdir ++
    sched.map TransferEvent.pullFile

/-- Path `a` is a proper ancestor directory of path `b`. -/
def isAncestor (a b : String) : Prop :=
  ∃ rest, b = a ++ "/" ++ rest

/-- A proper ancestor path is strictly shorter. -/
theorem isAncestor_length_lt {a b : String} (h : isAncestor a b) :
    a.length < b.length := by
  obtain ⟨rest, rfl⟩ := h
  rw [String.length_append, String.length_append]
  have h1 : ("/" : String).length = 1 := rfl
  omega

/-- The creation order is pairwise non-decreasing in path length. -/
theorem dirCreationOrder_pairwise (dirs : List String) :
    (dirCreationOrder dirs).Pairwise (fun a b => a.length ≤ b.length) := by
  have h := @List.sorted_mergeSort String
    (fun a b => decide (a.length ≤ b.length))
    (fun a b c hab hbc => by
      simp only [decide_eq_true_eq] at hab hbc ⊢
      omega)
    (fun a b => by
      simp only [Bool.or_eq_true, decide_eq_true_eq]
      omega)
    dirs
  exact h.imp (fun hab => by simpa using hab)

/-- C6: every listed directory is created, in non-decreasing path-length
order, before any file transfer begins (for both `pull_bundle_via_frida`
and `SshClient.download_dir`, whose creation loops are identical);
consequently, whenever `a` is an ancestor of `b`, every creation of `a`
precedes every creation of `b`, under every worker scheduling. -/
theorem pullBundle_dir_order_spec (dirs sched : List String) :
    (dirCreationOrder dirs).Perm dirs ∧
    (dirCreationOrder dirs).Pairwise (fun a b => a.length ≤ b.length) ∧
    (∀ a b, isAncestor a b → ∀ i j : Nat,
      (dirCreationOrder dirs)[i]? = some a →
      (dirCreationOrder dirs)[j]? = some b → i < j) ∧
    (∀ (i j : Nat) (x y : String),
      (pullBundleTrace dirs sched)[i]? = some (TransferEvent.mkdir x) →
      (pullBundleTrace dirs sched)[j]? = some (TransferEvent.pullFile y) →
      i < j) ∧
    sshDirCreationOrder dirs = dirCreationOrder dirs ∧
    sshDownloadDirTrace dirs sched = pullBundleTrace dirs sched := by
  refine ⟨List.mergeSort_perm dirs _, dirCreationOrder_pairwise dirs,
    ?_, ?_, rfl, rfl⟩
  · intro a b hab i j ha hb
    obtain ⟨hi, ha⟩ := List.getElem?_eq_some_iff.mp ha
    obtain ⟨hj, hb⟩ := List.getElem?_eq_some_iff.mp hb
    have hlen := isAncestor_length_lt hab
    rcases Nat.lt_trichotomy i j with h | h | h
    · exact h
    · subst h
      have hab' : a = b := by rw [← ha, ← hb]
      rw [hab'] at hlen
      omega
    · have hpw := List.pairwise_iff_getElem.mp (dirCreationOrder_pairwise dirs)
        j i hj hi h
      rw [ha, hb] at hpw
      omega
  · intro i j x y hx hy
    obtain ⟨hi, hx⟩ := List.getElem?_eq_some_iff.mp hx
    obtain ⟨hj, hy⟩ := List.getElem?_eq_some_iff.mp hy
    have hmk : i < ((dirCreationOrder dirs).map TransferEvent.mkdir).length := by
      by_contra hcon
      push_neg at hcon
      simp only [pullBundleTrace] at hx
      rw [List.getElem_append_right hcon] at hx
      rw [List.getElem_map] at hx
      exact absurd hx (by simp)
    have hfj : ((dirCreationOrder dirs).map TransferEvent.mkdir).length ≤ j := by
      by_contra hcon
      push_neg at hcon
      simp only [pullBundleTrace] at hy
      rw [List.getElem_append_left hcon] at hy
      rw [List.getElem_map] at hy
      exact absurd hy (by simp)
    omega

/-- Witness for C6 on the two-directory listing `["a", "a/b"]` of the
spec's scenario. -/
theorem pullBundle_dir_order_spec_witness :
    isAncestor "a" "a/b" ∧
    (dirCreationOrder ["a", "a/b"])[0]? = some "a" ∧
    (dirCreationOrder ["a", "a/b"])[1]? = some "a/b" ∧
    (pullBundleTrace ["a", "a/b"] ["a/f1"])[0]? =
      some (TransferEvent.mkdir "a") ∧
    (pullBundleTrace ["a", "a/b"] ["a/f1"])[2]? =
      some (TransferEvent.pullFile "a/f1") ∧
    (0 : Nat) < 1 ∧ (0 : Nat) < 2 := by
  have hord : dirCreationOrder ["a", "a/b"] = ["a", "a/b"] :=
    List.mergeSort_of_sorted (by decide)
  have hanc : isAncestor "a" "a/b" := ⟨"b", by decide⟩
  have h0 : (dirCreationOrder ["a", "a/b"])[0]? = some "a" := by
    rw [hord]
    rfl
  have h1 : (dirCreationOrder ["a", "a/b"])[1]? = some "a/b" := by
    rw [hord]
    rfl
  have htr : pullBundleTrace ["a", "a/b"] ["a/f1"] =
      [TransferEvent.mkdir "a", TransferEvent.mkdir "a/b",
        TransferEvent.pullFile "a/f1"] := by
    rw [pullBundleTrace, hord]
    rfl
  have ht0 : (pullBundleTrace ["a", "a/b"] ["a/f1"])[0]? =
      some (TransferEvent.mkdir "a") := by
    rw [htr]
    rfl
  have ht2 : (pullBundleTrace ["a", "a/b"] ["a/f1"])[2]? =
      some (TransferEvent.pullFile "a/f1") := by
    rw [htr]
    rfl
  have h := pullBundle_dir_order_spec ["a", "a/b"] ["a/f1"]
  exact ⟨hanc, h0, h1, ht0, ht2,
    h.2.2.1 "a" "a/b" hanc 0 1 h0 h1,
    h.2.2.2.1 0 2 "a" "a/f1" ht0 ht2⟩

/-- Result tuple of one worker's `download_file` closure in
`_pull_files_parallel` (`transfer.py` lines 187-201): the unit's relative
path, whether it succeeded, and the caught exception if any.  `dl rel`
stands for the `pull_file_via_frida` call for unit `rel`. -/
def downloadFileWorker (dl : String → Except String Unit) (rel : String) :
    String × Bool × Option String :=
  match dl rel with
  | .ok _ => (rel, true, none)
  | .error e => (rel, false, some e)

/-- Whether `pull_file_via_frida` for unit `rel` raises. -/
def dlFails (dl : String → Except String Unit) (rel : String) : Bool :=
  match dl rel with
  | .ok _ => false
  | .error _ => true

/-- Embedding of `_pull_files_parallel` (`transfer.py` lines 203-209): every
unit is submitted to the pool, every future is awaited, and a warning is
logged for each failed unit.  The Python function returns `None`; its
observable outcome, modelled here, is the per-unit result list together
with the list of units a warning was logged for.  Completion order is
nondeterministic in the source; the model lists results in submission
order. -/
def pullFilesParallel (dl : String → Except String Unit)
    (files : List String) :
    List (String × Bool × Option String) × List String :=
  let results := files.map (downloadFileWorker dl)
  (results,
    (results.filter (fun r => !r.2.1 && r.2.2.isSome)).map (fun r => r.1))

/-- Embedding of the sequential path of `pull_bundle_via_frida`
(`transfer.py` lines 161-173): `pull_file_via_frida` is called for each
valid file in listing order, with no exception handling, so a raising unit
aborts the loop and the exception propagates to the caller. -/
def pullBundleSequential (dl : String → Except String Unit) :
    List String → Except String Unit
  | [] => .ok ()
  | rel :: rest =>
    match dl rel with
    | .ok _ => pullBundleSequential dl rest
    | .error e => .error e

/-- The units the sequential path actually attempts, in order: the loop
stops at the first failing unit. -/
def pullBundleSequentialAttempts (dl : String → Except String Unit) :
    List String → List String
  | [] => []
  | rel :: rest =>
    match dl rel with
    | .ok _ => rel :: pullBundleSequentialAttempts dl rest
    | .error _ => [rel]

/-- The path component of a worker result is the unit's own path. -/
theorem downloadFileWorker_fst (dl : String → Except String Unit)
    (rel : String) : (downloadFileWorker dl rel).1 = rel := by
  cases h : dl rel <;> simp [downloadFileWorker, h]

/-- The warning log of the parallel scheduler lists exactly the failed
units, in order. -/
theorem pullFilesParallel_warnings (dl : String → Except String Unit) :
    ∀ files, (pullFilesParallel dl files).2 = files.filter (dlFails dl) := by
  intro files
  induction files with
  | nil => rfl
  | cons rel rest ih =>
    simp only [pullFilesParallel, List.map_cons, List.filter_cons] at ih ⊢
    cases h : dl rel with
    | ok v =>
      simp only [downloadFileWorker, dlFails, h]
      simpa [pullFilesParallel] using ih
    | error e =>
      simp only [downloadFileWorker, dlFails, h, Option.isSome_some,
        Bool.not_false, Bool.and_self, if_true, List.map_cons]
      simpa [pullFilesParallel] using ih

/-- C1 counterexample: in the sequential path of `pull_bundle_via_frida` a
failing unit does abort its siblings, and no failure list is accumulated —
the exception propagates.  With units `["a", "b"]` and `"a"` failing, only
`"a"` is attempted, `"b"` is never transferred, and the call raises. -/
theorem pullBundle_sequential_abort_counterexample :
    pullBundleSequentialAttempts
      (fun rel => if rel = "a" then .error "boom" else .ok ()) ["a", "b"] =
      ["a"] ∧
    "b" ∉ pullBundleSequentialAttempts
      (fun rel => if rel = "a" then .error "boom" else .ok ()) ["a", "b"] ∧
    pullBundleSequential
      (fun rel => if rel = "a" then .error "boom" else .ok ()) ["a", "b"] =
      .error "boom" := by
  refine ⟨by decide, by decide, rfl⟩

/-- C1 (amended): in the parallel path each unit's failure is caught at the
worker boundary and logged as a warning, every dispatched unit runs to
completion regardless of sibling failures, and the scheduler returns only
after all units have completed; no failure list is returned to the caller
(the Python function returns `None`) — failures are only logged.  In the
sequential path the first failing unit's exception propagates at once and
the remaining units are never attempted. -/
theorem pullFilesParallel_spec (dl : String → Except String Unit)
    (files : List String) :
    ((pullFilesParallel dl files).1.map (fun r => r.1) = files) ∧
    (∀ rel, rel ∈ files →
      downloadFileWorker dl rel ∈ (pullFilesParallel dl files).1) ∧
    ((pullFilesParallel dl files).2 = files.filter (dlFails dl)) ∧
    (∀ e rel rest, dl rel = .error e →
      pullBundleSequential dl (rel :: rest) = .error e ∧
      pullBundleSequentialAttempts dl (rel :: rest) = [rel]) := by
  refine ⟨?_, ?_, pullFilesParallel_warnings dl files, ?_⟩
  · simp only [pullFilesParallel, List.map_map]
    have hcomp : (fun r : String × Bool × Option String => r.1) ∘
        downloadFileWorker dl = fun rel => rel := by
      funext rel
      simp [downloadFileWorker_fst]
    rw [hcomp]
    exact List.map_id' files
  · intro rel hrel
    exact List.mem_map_of_mem (downloadFileWorker dl) hrel
  · intro e rel rest h
    constructor
    · simp [pullBundleSequential, h]
    · simp [pullBundleSequentialAttempts, h]

/-- Witness for C1 (amended) with units `["a", "b"]` where `"a"` fails. -/
theorem pullFilesParallel_spec_witness :
    ((pullFilesParallel
        (fun rel => if rel = "a" then .error "boom" else .ok ())
        ["a", "b"]).1.map (fun r => r.1) = ["a", "b"]) ∧
    ("a" : String) ∈ (["a", "b"] : List String) ∧
    downloadFileWorker
        (fun rel => if rel = "a" then .error "boom" else .ok ()) "a" ∈
      (pullFilesParallel
        (fun rel => if rel = "a" then .error "boom" else .ok ())
        ["a", "b"]).1 ∧
    (fun rel => if rel = "a"
        then (Except.error "boom" : Except String Unit)
        else .ok ()) "a" = .error "boom" ∧
    pullBundleSequential
      (fun rel => if rel = "a" then .error "boom" else .ok ())
      ["a", "b"] = .error "boom" := by
  have h := pullFilesParallel_spec
    (fun rel => if rel = "a" then .error "boom" else .ok ()) ["a", "b"]
  refine ⟨h.1, by decide, h.2.1 "a" (by decide), rfl, ?_⟩
  exact (h.2.2.2 "boom" "a" ["b"] rfl).1

/-- Stat record returned by the agent's `stat`/`batchStat` RPC calls:
`{exists, isDir, size}` (`exists` is a reserved word in Lean, hence
`statExists`). -/
structure StatInfo where
  statExists : Bool
  isDir : Bool
  size : Nat
deriving DecidableEq

/-- Error raised by the size-resolution prologue of
`pull_file_via_frida`. -/
inductive PullError where
  | notFound (path : String)
  | isDirectory (path : String)
deriving DecidableEq

/-- Embedding of the size-resolution prologue of `pull_file_via_frida`
(`transfer.py` lines 231-237): only when the caller supplied no size is the
remote path stat'd — raising "not found" when it does not exist and "is a
directory" when it names a directory; a caller-supplied size is used as-is
with no stat and no check. -/
def resolvePullSize (statPath : String → StatInfo) (remotePath : String)
    (sizeArg : Option Nat) : Except PullError Nat :=
  match sizeArg with
  | some s => .ok s
  | none =>
    let st := statPath remotePath
    if st.statExists = false then .error (.notFound remotePath)
    else if st.isDir = true then .error (.isDirectory remotePath)
    else .ok st.size

/-- C9 counterexample: with a caller-supplied size, `pull_file_via_frida`
performs no existence or directory check at all — for a remote path whose
stat reports `exists = false` the call proceeds with the supplied size
instead of failing with a not-found error. -/
theorem resolvePullSize_counterexample :
    resolvePullSize (fun _ => ⟨false, false, 0⟩) "missing" (some 5) =
      .ok 5 ∧
    (Except.ok 5 : Except PullError Nat) ≠
      .error (.notFound "missing") := by
  refine ⟨rfl, by simp⟩

/-- C9 (amended): `pull_file_via_frida` fails with a not-found error when
the remote path does not exist and with an is-a-directory error when it
names a directory, but only when the caller supplied no expected size; a
caller-supplied size skips the stat check entirely and is returned
as-is. -/
theorem resolvePullSize_spec (statPath : String → StatInfo)
    (remotePath : String) :
    ((statPath remotePath).statExists = false →
      resolvePullSize statPath remotePath none =
        .error (.notFound remotePath)) ∧
    ((statPath remotePath).statExists = true →
      (statPath remotePath).isDir = true →
      resolvePullSize statPath remotePath none =
        .error (.isDirectory remotePath)) ∧
    ((statPath remotePath).statExists = true →
      (statPath remotePath).isDir = false →
      resolvePullSize statPath remotePath none =
        .ok (statPath remotePath).size) ∧
    (∀ s : Nat, resolvePullSize statPath remotePath (some s) = .ok s) := by
  refine ⟨?_, ?_, ?_, fun s => rfl⟩
  · intro h
    simp [resolvePullSize, h]
  · intro h1 h2
    simp [resolvePullSize, h1, h2]
  · intro h1 h2
    simp [resolvePullSize, h1, h2]

/-- Witness for C9 over concrete stat results. -/
theorem resolvePullSize_spec_witness :
    resolvePullSize (fun _ => ⟨false, false, 0⟩) "p" none =
      .error (.notFound "p") ∧
    resolvePullSize (fun _ => ⟨true, true, 0⟩) "p" none =
      .error (.isDirectory "p") ∧
    resolvePullSize (fun _ => ⟨true, false, 7⟩) "p" none = .ok 7 ∧
    resolvePullSize (fun _ => ⟨false, false, 0⟩) "p" (some 5) = .ok 5 := by
  refine ⟨(resolvePullSize_spec (fun _ => ⟨false, false, 0⟩) "p").1 rfl,
    (resolvePullSize_spec (fun _ => ⟨true, true, 0⟩) "p").2.1 rfl rfl,
    (resolvePullSize_spec (fun _ => ⟨true, false, 7⟩) "p").2.2.1 rfl rfl,
    (resolvePullSize_spec (fun _ => ⟨false, false, 0⟩) "p").2.2.2 5⟩

/-- A directory listing returned by the agent's `list_files` RPC
(`dumper.list_files`): relative directory and file paths under the bundle
root. -/
structure Listing where
  dirs : List String
  files : List String

/-- Insertion into a Python `dict` with string keys, modelled as an
insertion-ordered association list: an existing key keeps its position and
receives the new value, a new key is appended. -/
def dictInsert (m : List (String × Nat)) (k : String) (v : Nat) :
    List (String × Nat) :=
  if m.any (fun kv => kv.1 == k) then
    m.map (fun kv => if kv.1 == k then (kv.1, v) else kv)
  else m ++ [(k, v)]

/-- The classification `enumerate_bundle_files` applies to every stat
result (`transfer.py` lines 81-84, 91-94, 100-104): a file contributes its
size exactly when it exists and is not a directory. -/
def classify (st : StatInfo) : Option Nat :=
  if st.statExists && !st.isDir then some st.size else none

/-- One iteration of the per-file stat loop of `enumerate_bundle_files`
(`transfer.py` lines 88-94 and 97-104): stat the remote path, and on a
positive classification insert the size into the dict and add it to the
running total. -/
def statStep (bundlePath : String) (statOf : String → StatInfo)
    (acc : List (String × Nat) × Nat) (rel : String) :
    List (String × Nat) × Nat :=
  match classify (statOf (bundlePath ++ "/" ++ rel)) with
  | some s => (dictInsert acc.1 rel s, acc.2 + s)
  | none => acc

/-- Lookup in the dict returned by the batched `stat_paths` RPC:
`stats.get(remote_path, {})` (`transfer.py` line 80), where the missing-key
default `{}` classifies as non-existent. -/
def lookupD (m : List (String × StatInfo)) (k : String) : StatInfo :=
  match m.find? (fun kv => kv.1 == k) with
  | some kv => kv.2
  | none => ⟨false, false, 0⟩

/-- The batch partition `files[i : i + batch_stat_size]` of the Python
loop (`transfer.py` lines 72-73).  Fuel-based: each step consumes at least
one element when `0 < bs`, so `fuel = l.length` reproduces the loop
(`toBatchesGo_flatten`).  Python's `range(0, n, 0)` would raise, so all
theorems assume `0 < bs`. -/
def toBatchesGo (bs : Nat) : Nat → List String → List (List String)
  | 0, _ => []
  | _, [] => []
  | fuel + 1, l => l.take bs :: toBatchesGo bs fuel (l.drop bs)

/-- The list of batches of `files`, `bs` at a time. -/
def toBatches (bs : Nat) (l : List String) : List (List String) :=
  toBatchesGo bs l.length l

/-- Processing of one batch by `enumerate_bundle_files` (`transfer.py`
lines 72-94): one `stat_paths` attempt for the whole batch; on success each
file of the batch is classified from the returned dict, on an exception
each file of the batch is stat'd individually with `stat_path` and
classified by the same rule. -/
def batchBody (bundlePath : String) (statOf : String → StatInfo)
    (batchFails : List String → Bool)
    (acc : List (String × Nat) × Nat) (batch : List String) :
    List (String × Nat) × Nat :=
  let paths := batch.map (fun rel => bundlePath ++ "/" ++ rel)
  if batchFails paths then
    batch.foldl (statStep bundlePath statOf) acc
  else
    let stats := paths.map (fun p => (p, statOf p))
    batch.foldl (fun a rel =>
      match classify (lookupD stats (bundlePath ++ "/" ++ rel)) with
      | some s => (dictInsert a.1 rel s, a.2 + s)
      | none => a) acc

/-- Embedding of `enumerate_bundle_files` (`transfer.py` lines 41-107).
`statOf` is the stat the agent reports for a full remote path (the same
snapshot for `stat_paths` and `stat_path`); `batchFails paths` says whether
the batched `stat_paths` call raises for that batch; `hasBatch` is
`hasattr(dumper, "stat_paths")`.  Returns `(dirs, files, sizes, total)`
exactly as the source does: the raw listing unmodified, the size dict, and
the separately accumulated byte total. -/
def enumerateBundleFiles (listing : Listing) (bundlePath : String)
    (statOf : String → StatInfo) (batchFails : List String → Bool)
    (hasBatch : Bool) (bs : Nat) :
    List String × List String × List (String × Nat) × Nat :=
  if hasBatch = true ∧ listing.files ≠ [] then
    let res := (toBatches bs listing.files).foldl
      (batchBody bundlePath statOf batchFails) ([], 0)
    (listing.dirs, listing.files, res.1, res.2)
  else
    let res := listing.files.foldl (statStep bundlePath statOf) ([], 0)
    (listing.dirs, listing.files, res.1, res.2)

/-- The size of one listed occurrence as the enumeration counts it. -/
def classSize (bundlePath : String) (statOf : String → StatInfo)
    (rel : String) : Nat :=
  (classify (statOf (bundlePath ++ "/" ++ rel))).getD 0

/-- Sum of the values of the size dict. -/
def sumValues (m : List (String × Nat)) : Nat :=
  (m.map (fun kv => kv.2)).sum

/-- With sufficient fuel the batches concatenate back to the input list. -/
theorem toBatchesGo_flatten (bs : Nat) (hbs : 0 < bs) :
    ∀ fuel l, l.length ≤ fuel → (toBatchesGo bs fuel l).flatten = l := by
  intro fuel
  induction fuel with
  | zero =>
    intro l h
    have hnil : l = [] := List.eq_nil_of_length_eq_zero (by omega)
    subst hnil
    cases bs with
    | zero => rfl
    | succ b => rfl
  | succ fuel ih =>
    intro l h
    cases l with
    | nil =>
      cases bs with
      | zero => rfl
      | succ b => rfl
    | cons x xs =>
      cases bs with
      | zero => omega
      | succ b =>
        simp only [toBatchesGo, List.flatten_cons]
        rw [ih ((x :: xs).drop (b + 1)) (by
          simp only [List.length_drop, List.length_cons] at h ⊢
          omega)]
        exact List.take_append_drop (b + 1) (x :: xs)

/-- The stat dict a successful `stat_paths` returns for a batch resolves
each of the batch's own paths to the agent's stat for that path. -/
theorem lookupD_batch (statOf : String → StatInfo) (f : String → String) :
    ∀ (batch : List String) (rel : String), rel ∈ batch →
      lookupD ((batch.map f).map (fun p => (p, statOf p))) (f rel) =
        statOf (f rel) := by
  intro batch
  induction batch with
  | nil => intro rel h; cases h
  | cons b bs ih =>
    intro rel h
    simp only [List.map_cons, lookupD, List.find?]
    by_cases hb : (f b == f rel) = true
    · have hfb : f b = f rel := by simpa using hb
      simp only [hb]
      simp [hfb]
    · have hmem : rel ∈ bs := by
        cases h with
        | head => simp at hb
        | tail _ h2 => exact h2
      simp only [hb]
      have := ih rel hmem
      simpa [lookupD] using this

/-- A successful batch classifies each file of the batch exactly as the
per-file fallback does: the dict lookup resolves to the same stat. -/
theorem foldl_lookup_eq_statStep (bundlePath : String)
    (statOf : String → StatInfo) (batch : List String) :
    ∀ (sub : List String) (acc : List (String × Nat) × Nat),
      (∀ r, r ∈ sub → r ∈ batch) →
      sub.foldl (fun a rel =>
        match classify (lookupD
            ((batch.map (fun rel => bundlePath ++ "/" ++ rel)).map
              (fun p => (p, statOf p)))
            (bundlePath ++ "/" ++ rel)) with
        | some s => (dictInsert a.1 rel s, a.2 + s)
        | none => a) acc =
      sub.foldl (statStep bundlePath statOf) acc := by
  intro sub
  induction sub with
  | nil => intro acc _; rfl
  | cons r rs ih =>
    intro acc hsub
    simp only [List.foldl_cons]
    have hr : r ∈ batch := hsub r (List.mem_cons_self r rs)
    have hl := lookupD_batch statOf (fun rel => bundlePath ++ "/" ++ rel)
      batch r hr
    rw [hl]
    exact ih (statStep bundlePath statOf acc r)
      (fun x hx => hsub x (List.mem_cons_of_mem r hx))

/-- Whether the batched call succeeds or raises, a batch contributes
exactly the per-file classification of its own files. -/
theorem batchBody_eq_statStep (bundlePath : String)
    (statOf : String → StatInfo) (batchFails : List String → Bool)
    (acc : List (String × Nat) × Nat) (batch : List String) :
    batchBody bundlePath statOf batchFails acc batch =
      batch.foldl (statStep bundlePath statOf) acc := by
  unfold batchBody
  by_cases hf : batchFails
      (batch.map (fun rel => bundlePath ++ "/" ++ rel)) = true
  · simp only [hf, if_true]
  · simp only [hf, Bool.false_eq_true, if_false]
    exact foldl_lookup_eq_statStep bundlePath statOf batch batch acc
      (fun r hr => hr)

/-- Replacing the value stored at one key leaves lookups of other keys
unchanged. -/
theorem lookup_map_replace (k k' : String) (v : Nat)
    (h : ¬ (k == k') = true) :
    ∀ m : List (String × Nat),
      (m.map (fun kv => if kv.1 == k' then (kv.1, v) else kv)).lookup k =
        m.lookup k := by
  intro m
  induction m with
  | nil => rfl
  | cons kv m ih =>
    obtain ⟨a, b⟩ := kv
    by_cases hk : (a == k') = true
    · simp only [List.map_cons, hk, if_true]
      by_cases h2 : (k == a) = true
      · have e1 : k = a := by simpa using h2
        have e2 : a = k' := by simpa using hk
        subst e1
        subst e2
        simp at h
      · simp only [List.lookup_cons, h2]
        exact ih
    · simp only [List.map_cons, hk, Bool.false_eq_true, if_false]
      by_cases h2 : (k == a) = true
      · simp [List.lookup_cons, h2]
      · simp only [List.lookup_cons, h2]
        exact ih

/-- `dictInsert` at one key leaves lookups of other keys unchanged. -/
theorem lookup_dictInsert_ne (m : List (String × Nat)) (k k' : String)
    (v : Nat) (h : ¬ (k == k') = true) :
    (dictInsert m k' v).lookup k = m.lookup k := by
  unfold dictInsert
  by_cases ha : m.any (fun kv => kv.1 == k') = true
  · simp only [ha, if_true]
    exact lookup_map_replace k k' v h m
  · simp only [ha, Bool.false_eq_true, if_false]
    rw [List.lookup_append]
    have h1 : ([(k', v)] : List (String × Nat)).lookup k = none := by
      simp [List.lookup_cons, h]
    rw [h1]
    cases m.lookup k <;> rfl

/-- Inserting a key the dict does not hold appends it. -/
theorem dictInsert_of_lookup_none (m : List (String × Nat)) (k : String)
    (v : Nat) (h : m.lookup k = none) :
    dictInsert m k v = m ++ [(k, v)] := by
  unfold dictInsert
  have ha : m.any (fun kv => kv.1 == k) = false := by
    induction m with
    | nil => rfl
    | cons kv m ih =>
      obtain ⟨a, b⟩ := kv
      rw [List.lookup_cons] at h
      by_cases h2 : (k == a) = true
      · simp [h2] at h
      · have e : ¬ k = a := by simpa using h2
        have e' : (a == k) = false := by
          simp only [beq_eq_false_iff_ne]
          intro hc
          exact e hc.symm
        simp only [h2] at h
        simp only [List.any_cons, e', Bool.false_or]
        exact ih h
  simp [ha]

/-- A path classified as absent-or-directory is never inserted by the
stat loop. -/
theorem lookup_foldl_statStep_none (bundlePath : String)
    (statOf : String → StatInfo) (rel : String)
    (hrel : classify (statOf (bundlePath ++ "/" ++ rel)) = none) :
    ∀ (files : List String) (acc : List (String × Nat) × Nat),
      acc.1.lookup rel = none →
      ((files.foldl (statStep bundlePath statOf) acc).1).lookup rel =
        none := by
  intro files
  induction files with
  | nil => intro acc h; exact h
  | cons r rs ih =>
    intro acc h
    simp only [List.foldl_cons]
    apply ih
    unfold statStep
    cases hc : classify (statOf (bundlePath ++ "/" ++ r)) with
    | none => exact h
    | some s =>
      have hne : ¬ (rel == r) = true := by
        intro hb
        have e : rel = r := by simpa using hb
        rw [e, hc] at hrel
        cases hrel
      simp only []
      rw [lookup_dictInsert_ne acc.1 rel r s hne]
      exact h

/-- Keys outside a processed list keep their lookup results. -/
theorem lookup_foldl_statStep_outside (bundlePath : String)
    (statOf : String → StatInfo) :
    ∀ (batch : List String) (acc : List (String × Nat) × Nat) (k : String),
      (∀ r, r ∈ batch → ¬ (k == r) = true) →
      ((batch.foldl (statStep bundlePath statOf) acc).1).lookup k =
        acc.1.lookup k := by
  intro batch
  induction batch with
  | nil => intro acc k _; rfl
  | cons r rs ih =>
    intro acc k hk
    simp only [List.foldl_cons]
    rw [ih (statStep bundlePath statOf acc r) k
      (fun x hx => hk x (List.mem_cons_of_mem r hx))]
    unfold statStep
    cases hc : classify (statOf (bundlePath ++ "/" ++ r)) with
    | none => rfl
    | some s =>
      simp only []
      exact lookup_dictInsert_ne acc.1 k r s (hk r (List.mem_cons_self r rs))

/-- The running total adds the classified size of every listed occurrence,
duplicates included. -/
theorem foldl_statStep_snd (bundlePath : String)
    (statOf : String → StatInfo) :
    ∀ (files : List String) (acc : List (String × Nat) × Nat),
      (files.foldl (statStep bundlePath statOf) acc).2 =
        acc.2 + (files.map (classSize bundlePath statOf)).sum := by
  intro files
  induction files with
  | nil => intro acc; simp
  | cons r rs ih =>
    intro acc
    simp only [List.foldl_cons, List.map_cons, List.sum_cons]
    rw [ih]
    unfold statStep classSize
    cases hc : classify (statOf (bundlePath ++ "/" ++ r)) with
    | none => simp
    | some s => simp [Nat.add_assoc, Nat.add_comm s]

/-- Under distinct keys, the dict's value sum grows by the same classified
sizes as the running total. -/
theorem foldl_statStep_sumValues (bundlePath : String)
    (statOf : String → StatInfo) :
    ∀ (files : List String) (acc : List (String × Nat) × Nat),
      files.Nodup →
      (∀ r, r ∈ files → acc.1.lookup r = none) →
      sumValues (files.foldl (statStep bundlePath statOf) acc).1 =
        sumValues acc.1 + (files.map (classSize bundlePath statOf)).sum := by
  intro files
  induction files with
  | nil => intro acc _ _; simp
  | cons r rs ih =>
    intro acc hnd hfresh
    have hndr : rs.Nodup := (List.nodup_cons.mp hnd).2
    have hrnotin : r ∉ rs := (List.nodup_cons.mp hnd).1
    simp only [List.foldl_cons, List.map_cons, List.sum_cons]
    cases hc : classify (statOf (bundlePath ++ "/" ++ r)) with
    | none =>
      have hstep : statStep bundlePath statOf acc r = acc := by
        unfold statStep
        rw [hc]
      have hcs : classSize bundlePath statOf r = 0 := by
        unfold classSize
        rw [hc]
        rfl
      rw [hstep, hcs,
        ih acc hndr (fun x hx => hfresh x (List.mem_cons_of_mem r hx))]
      omega
    | some s =>
      have hstep : statStep bundlePath statOf acc r =
          (acc.1 ++ [(r, s)], acc.2 + s) := by
        unfold statStep
        rw [hc]
        show (dictInsert acc.1 r s, acc.2 + s) = (acc.1 ++ [(r, s)], acc.2 + s)
        rw [dictInsert_of_lookup_none acc.1 r s
          (hfresh r (List.mem_cons_self r rs))]
      have hcs : classSize bundlePath statOf r = s := by
        unfold classSize
        rw [hc]
        rfl
      have hfresh' : ∀ x, x ∈ rs → ((acc.1 ++ [(r, s)]).lookup x) = none := by
        intro x hx
        rw [List.lookup_append, hfresh x (List.mem_cons_of_mem r hx)]
        have hxr : ¬ (x == r) = true := by
          intro hb
          have e : x = r := by simpa using hb
          subst e
          exact hrnotin hx
        simp [List.lookup_cons, hxr]
      rw [hstep, ih (acc.1 ++ [(r, s)], acc.2 + s) hndr hfresh']
      have hsum : sumValues (acc.1 ++ [(r, s)]) = sumValues acc.1 + s := by
        unfold sumValues
        simp
      rw [hsum, hcs]
      omega

/-- Whatever batches fail, enumeration computes the flat per-file stat fold
over the whole file list. -/
theorem enumerateBundleFiles_eq_flat (listing : Listing)
    (bundlePath : String) (statOf : String → StatInfo)
    (batchFails : List String → Bool) (hasBatch : Bool) (bs : Nat)
    (hbs : 0 < bs) :
    enumerateBundleFiles listing bundlePath statOf batchFails hasBatch bs =
      (listing.dirs, listing.files,
        (listing.files.foldl (statStep bundlePath statOf) ([], 0)).1,
        (listing.files.foldl (statStep bundlePath statOf) ([], 0)).2) := by
  unfold enumerateBundleFiles
  by_cases hc : hasBatch = true ∧ listing.files ≠ []
  · simp only [hc, if_true]
    have h1 : ∀ (L : List (List String)) (acc : List (String × Nat) × Nat),
        L.foldl (batchBody bundlePath statOf batchFails) acc =
          L.foldl (fun a b => b.foldl (statStep bundlePath statOf) a) acc := by
      intro L
      induction L with
      | nil => intro acc; rfl
      | cons b L ih =>
        intro acc
        simp only [List.foldl_cons, batchBody_eq_statStep]
        exact ih _
    rw [h1, ← List.foldl_flatten]
    unfold toBatches
    rw [toBatchesGo_flatten bs hbs listing.files.length listing.files
      (le_refl _), ite_self]
  · simp only [hc, if_false]

/-- C4: `enumerate_bundle_files` partitions the file list into batches of
`batch_stat_size`; a batch whose `stat_paths` call raises is re-stat'd
path by path (and only that batch) with exactly the classification the
batched call would have applied, so the whole enumeration equals the
enumeration in which no batch fails; size entries for keys outside a batch
— in particular those accumulated from earlier successful batches — are
preserved unchanged by processing the batch. -/
theorem enumerateBundleFiles_batch_fallback_spec (listing : Listing)
    (bundlePath : String) (statOf : String → StatInfo)
    (batchFails : List String → Bool) (bs : Nat) (hbs : 0 < bs) :
    (enumerateBundleFiles listing bundlePath statOf batchFails true bs =
      enumerateBundleFiles listing bundlePath statOf (fun _ => false)
        true bs) ∧
    (∀ (acc : List (String × Nat) × Nat) (batch : List String),
      batchBody bundlePath statOf batchFails acc batch =
        batch.foldl (statStep bundlePath statOf) acc) ∧
    (∀ (acc : List (String × Nat) × Nat) (batch : List String) (k : String),
      (∀ r, r ∈ batch → ¬ (k == r) = true) →
      ((batchBody bundlePath statOf batchFails acc batch).1).lookup k =
        acc.1.lookup k) := by
  refine ⟨?_, fun acc batch => batchBody_eq_statStep bundlePath statOf
    batchFails acc batch, ?_⟩
  · rw [enumerateBundleFiles_eq_flat listing bundlePath statOf batchFails
      true bs hbs,
      enumerateBundleFiles_eq_flat listing bundlePath statOf (fun _ => false)
      true bs hbs]
  · intro acc batch k hk
    rw [batchBody_eq_statStep]
    exact lookup_foldl_statStep_outside bundlePath statOf batch acc k hk

/-- Witness for C4: three files in batches of two, where the `stat_paths`
call raises exactly for the first batch, and a batch not containing `"f"`
preserves the accumulated entry for `"f"`. -/
theorem enumerateBundleFiles_batch_fallback_witness :
    (0 : Nat) < 2 ∧
    enumerateBundleFiles ⟨[], ["f", "g", "h"]⟩ "b"
        (fun _ => ⟨true, false, 3⟩) (fun paths => paths.length == 2)
        true 2 =
      enumerateBundleFiles ⟨[], ["f", "g", "h"]⟩ "b"
        (fun _ => ⟨true, false, 3⟩) (fun _ => false) true 2 ∧
    (∀ r, r ∈ (["g"] : List String) → ¬ (("f" : String) == r) = true) ∧
    ((batchBody "b" (fun _ => ⟨true, false, 3⟩)
        (fun paths => paths.length == 2) ([("f", 3)], 3) ["g"]).1).lookup
      "f" = some 3 := by
  have h := enumerateBundleFiles_batch_fallback_spec ⟨[], ["f", "g", "h"]⟩
    "b" (fun _ => ⟨true, false, 3⟩) (fun paths => paths.length == 2) 2
    (by decide)
  refine ⟨by decide, h.1, by decide, ?_⟩
  rw [h.2.2 ([("f", 3)], 3) ["g"] "f" (by decide)]
  rfl

/-- C5 counterexample: with a duplicated entry in the raw file list the
returned total double-counts the file while the dict keeps a single entry,
so the total (20) differs from the sum of the sizes in the mapping (10). -/
theorem enumerateBundleFiles_total_counterexample :
    (enumerateBundleFiles ⟨[], ["f", "f"]⟩ "b" (fun _ => ⟨true, false, 10⟩)
      (fun _ => false) true 50).2.2.2 = 20 ∧
    sumValues (enumerateBundleFiles ⟨[], ["f", "f"]⟩ "b"
      (fun _ => ⟨true, false, 10⟩) (fun _ => false) true 50).2.2.1 = 10 ∧
    (20 : Nat) ≠ 10 := by
  refine ⟨by decide, by decide, by decide⟩

/-- C5 (amended): a file entry whose stat reports `exists = false` or
is-directory is absent from the returned size mapping yet the raw file
list is returned unmodified (as is the directory list); the returned total
equals the sum of the classified sizes of every listed occurrence, which
equals the sum of the sizes in the size mapping whenever the raw file list
has no duplicate entries — with duplicates the total counts each
occurrence while the mapping keeps one entry per path. -/
theorem enumerateBundleFiles_result_spec (listing : Listing)
    (bundlePath : String) (statOf : String → StatInfo)
    (batchFails : List String → Bool) (hasBatch : Bool) (bs : Nat)
    (hbs : 0 < bs) :
    ((enumerateBundleFiles listing bundlePath statOf batchFails hasBatch
        bs).1 = listing.dirs ∧
      (enumerateBundleFiles listing bundlePath statOf batchFails hasBatch
        bs).2.1 = listing.files) ∧
    (∀ rel, classify (statOf (bundlePath ++ "/" ++ rel)) = none →
      ((enumerateBundleFiles listing bundlePath statOf batchFails hasBatch
        bs).2.2.1).lookup rel = none) ∧
    ((enumerateBundleFiles listing bundlePath statOf batchFails hasBatch
        bs).2.2.2 =
      (listing.files.map (classSize bundlePath statOf)).sum) ∧
    (listing.files.Nodup →
      (enumerateBundleFiles listing bundlePath statOf batchFails hasBatch
        bs).2.2.2 =
      sumValues (enumerateBundleFiles listing bundlePath statOf batchFails
        hasBatch bs).2.2.1) := by
  rw [enumerateBundleFiles_eq_flat listing bundlePath statOf batchFails
    hasBatch bs hbs]
  refine ⟨⟨rfl, rfl⟩, ?_, ?_, ?_⟩
  · intro rel hrel
    exact lookup_foldl_statStep_none bundlePath statOf rel hrel
      listing.files ([], 0) rfl
  · have h2 := foldl_statStep_snd bundlePath statOf listing.files ([], 0)
    simpa using h2
  · intro hnd
    rw [foldl_statStep_snd bundlePath statOf listing.files ([], 0),
      foldl_statStep_sumValues bundlePath statOf listing.files ([], 0) hnd
      (fun r _ => rfl)]
    rfl

/-- Witness for C5: a listing whose file `"y"` is a directory and whose
file `"x"` exists with size 4. -/
theorem enumerateBundleFiles_result_witness :
    (0 : Nat) < 3 ∧
    classify ((fun p => if p = "b/y" then (⟨true, true, 0⟩ : StatInfo)
      else ⟨true, false, 4⟩) ("b" ++ "/" ++ "y")) = none ∧
    ((enumerateBundleFiles ⟨["d"], ["x", "y"]⟩ "b"
      (fun p => if p = "b/y" then ⟨true, true, 0⟩ else ⟨true, false, 4⟩)
      (fun _ => false) true 3).2.2.1).lookup "y" = none ∧
    (["x", "y"] : List String).Nodup ∧
    (enumerateBundleFiles ⟨["d"], ["x", "y"]⟩ "b"
      (fun p => if p = "b/y" then ⟨true, true, 0⟩ else ⟨true, false, 4⟩)
      (fun _ => false) true 3).2.2.2 =
    sumValues (enumerateBundleFiles ⟨["d"], ["x", "y"]⟩ "b"
      (fun p => if p = "b/y" then ⟨true, true, 0⟩ else ⟨true, false, 4⟩)
      (fun _ => false) true 3).2.2.1 := by
  have h := enumerateBundleFiles_result_spec ⟨["d"], ["x", "y"]⟩ "b"
    (fun p => if p = "b/y" then ⟨true, true, 0⟩ else ⟨true, false, 4⟩)
    (fun _ => false) true 3 (by decide)
  refine ⟨by decide, by decide, h.2.1 "y" (by decide), by decide,
    h.2.2.2 (by decide)⟩

/-- A process entry from `device.enumerate_processes()`. -/
structure ProcessInfo where
  pid : Nat
  name : String
deriving DecidableEq

/-- The fixed ordered candidate list of `_switch_to_transfer_process`
(`cli.py` line 403). -/
def transferCandidates : List String :=
  ["SpringBoard", "backboardd", "launchd", "installd"]

/-- The candidate loop of `_switch_to_transfer_process` (`cli.py` lines
409-419): for each candidate name in order, the first listed process of
that name is looked up; when present with a PID different from the
currently attached one, the dumper detaches (exceptions swallowed, no
observable effect here) and attaches to it in a single attempt
(`retries=1`), returning `True`; an exception from `attach` propagates.
When no candidate matches, the loop falls through to `False`. -/
def switchLoop (processes : List ProcessInfo) (curPid : Nat)
    (attach : Nat → Except String Unit) :
    List String → Except String Bool
  | [] => .ok false
  | name :: rest =>
    match processes.find? (fun p => p.name == name) with
    | some p =>
      if p.pid ≠ curPid then
        match attach p.pid with
        | .ok _ => .ok true
        | .error e => .error e
      else switchLoop processes curPid attach rest
    | none => switchLoop processes curPid attach rest

/-- Embedding of `_switch_to_transfer_process` (`cli.py` lines 398-419): a
failing `enumerate_processes()` returns `False`; otherwise the candidate
loop runs over the fixed list. -/
def switchToTransferProcess (enumProcs : Except String (List ProcessInfo))
    (curPid : Nat) (attach : Nat → Except String Unit) :
    Except String Bool :=
  match enumProcs with
  | .error _ => .ok false
  | .ok processes => switchLoop processes curPid attach transferCandidates

/-- Outcome of `_handle_frida_error` (`cli.py` lines 285-314), as seen by
its caller. -/
inductive FallbackOutcome where
  | sshRetry
  | fridaRetry
  | userInstruction
  | exceptionRaised (e : String)
deriving DecidableEq

/-- Embedding of `_handle_frida_error` (`cli.py` lines 285-314): with an
SSH transport configured the entire download — enumeration plus transfer —
is redone over SSH (`_download_via_ssh` re-walks the tree and re-downloads);
otherwise `_switch_to_transfer_process()` decides: `True` retries the whole
download over Frida, `False` raises `SystemExit` with the user-facing
instruction; an exception raised inside the switch (in particular the
single-attempt `attach` failing) propagates out unhandled. -/
def handleFridaError (sshConfigured : Bool)
    (enumProcs : Except String (List ProcessInfo)) (curPid : Nat)
    (attach : Nat → Except String Unit) : FallbackOutcome :=
  if sshConfigured then .sshRetry
  else
    match switchToTransferProcess enumProcs curPid attach with
    | .ok true => .fridaRetry
    | .ok false => .userInstruction
    | .error e => .exceptionRaised e

/-- The candidate selection as the spec words it: the first candidate name,
in the fixed order, whose first listed process has a PID different from the
attached one. -/
def specCandidatePick (processes : List ProcessInfo) (curPid : Nat) :
    Option ProcessInfo :=
  transferCandidates.findSome? (fun name =>
    match processes.find? (fun p => p.name == name) with
    | some p => if p.pid ≠ curPid then some p else none
    | none => none)

/-- The candidate loop refines the spec's candidate selection: it attaches
once to the picked candidate, or reports `False` when there is none. -/
theorem switchLoop_eq_pick (processes : List ProcessInfo) (curPid : Nat)
    (attach : Nat → Except String Unit) :
    ∀ cands : List String,
      switchLoop processes curPid attach cands =
        match cands.findSome? (fun name =>
          match processes.find? (fun p => p.name == name) with
          | some p => if p.pid ≠ curPid then some p else none
          | none => none) with
        | some p => (attach p.pid).map (fun _ => true)
        | none => .ok false := by
  intro cands
  induction cands with
  | nil => rfl
  | cons name rest ih =>
    simp only [switchLoop, List.findSome?_cons]
    cases hf : processes.find? (fun p => p.name == name) with
    | none => exact ih
    | some p =>
      by_cases hp : p.pid ≠ curPid
      · simp only [if_pos hp]
        cases ha : attach p.pid with
        | ok v => rfl
        | error e => rfl
      · simp only [if_neg hp]
        exact ih

/-- C3 counterexample: with no SSH transport, a present candidate, and a
single-attempt attach that raises, `_handle_frida_error` terminates by
propagating the attach exception — not with the user-facing `SystemExit`
instruction the claim requires for a failed attach. -/
theorem handleFridaError_attach_counterexample :
    handleFridaError false (.ok [⟨7, "SpringBoard"⟩]) 1
      (fun _ => .error "unable to attach") =
      .exceptionRaised "unable to attach" ∧
    FallbackOutcome.exceptionRaised "unable to attach" ≠
      .userInstruction := by
  refine ⟨rfl, by decide⟩

/-- C3 (amended): on a transport-level failure the controller retries the
entire operation over SSH when an SSH transport is configured; otherwise it
scans the fixed ordered candidate list, picks the first name whose first
listed process has a PID differing from the attached one, attaches to it in
a single attempt and retries the operation over Frida; when no candidate is
present (or process enumeration fails) it terminates with the user-facing
instruction and no further automatic retry; when the attach itself raises,
the attach exception propagates and the operation terminates with no
further automatic retry but without the user-facing instruction. -/
theorem handleFridaError_spec (sshConfigured : Bool)
    (enumProcs : Except String (List ProcessInfo)) (curPid : Nat)
    (attach : Nat → Except String Unit) (processes : List ProcessInfo) :
    (sshConfigured = true →
      handleFridaError sshConfigured enumProcs curPid attach = .sshRetry) ∧
    (switchToTransferProcess enumProcs curPid attach = .ok true →
      handleFridaError false enumProcs curPid attach = .fridaRetry) ∧
    (switchToTransferProcess enumProcs curPid attach = .ok false →
      handleFridaError false enumProcs curPid attach = .userInstruction) ∧
    (∀ e, switchToTransferProcess enumProcs curPid attach = .error e →
      handleFridaError false enumProcs curPid attach =
        .exceptionRaised e) ∧
    (switchToTransferProcess (.ok processes) curPid attach =
      match specCandidatePick processes curPid with
      | some p => (attach p.pid).map (fun _ => true)
      | none => .ok false) ∧
    (∀ e, switchToTransferProcess (.error e) curPid attach = .ok false) := by
  refine ⟨?_, ?_, ?_, ?_, ?_, fun e => rfl⟩
  · intro h
    subst h
    rfl
  · intro h
    simp [handleFridaError, h]
  · intro h
    simp [handleFridaError, h]
  · intro e h
    simp [handleFridaError, h]
  · exact switchLoop_eq_pick processes curPid attach transferCandidates

/-- Witness for C3 over concrete configurations: SSH configured; a
candidate present with an attach that succeeds; no candidate present; a
candidate present with an attach that raises. -/
theorem handleFridaError_spec_witness :
    handleFridaError true (.ok []) 1 (fun _ => .ok ()) = .sshRetry ∧
    switchToTransferProcess (.ok [⟨7, "SpringBoard"⟩]) 1
      (fun _ => .ok ()) = .ok true ∧
    handleFridaError false (.ok [⟨7, "SpringBoard"⟩]) 1
      (fun _ => .ok ()) = .fridaRetry ∧
    switchToTransferProcess (.ok [⟨9, "Safari"⟩]) 1 (fun _ => .ok ()) =
      .ok false ∧
    handleFridaError false (.ok [⟨9, "Safari"⟩]) 1 (fun _ => .ok ()) =
      .userInstruction ∧
    switchToTransferProcess (.ok [⟨7, "SpringBoard"⟩]) 1
      (fun _ => .error "att") = .error "att" ∧
    handleFridaError false (.ok [⟨7, "SpringBoard"⟩]) 1
      (fun _ => .error "att") = .exceptionRaised "att" := by
  refine ⟨(handleFridaError_spec true (.ok []) 1 (fun _ => .ok ()) []).1 rfl,
    rfl,
    (handleFridaError_spec false (.ok [⟨7, "SpringBoard"⟩]) 1
      (fun _ => .ok ()) []).2.1 rfl,
    rfl,
    (handleFridaError_spec false (.ok [⟨9, "Safari"⟩]) 1
      (fun _ => .ok ()) []).2.2.1 rfl,
    rfl,
    (handleFridaError_spec false (.ok [⟨7, "SpringBoard"⟩]) 1
      (fun _ => .error "att") []).2.2.2.1 "att" rfl⟩

end FridaDump
